import Mathlib

/-! Verification of the paginated-iteration engine of
`src/lib/modules/platform/space/paginated-iterator.ts`.

The TypeScript class `PaginatedIterable<T>` wraps a page-fetch closure
`nextPage : (next?: string) => Promise<any>` together with a configuration
naming the envelope field holding the data array and the field holding the
next-page cursor.  Its inner class `PaginatedIterator` performs one fetch per
`next()` call, stores the envelope's next-cursor field, and reports `done`
exactly when the extracted data array is empty.  The derived operations
`findFirst` / `findFirstAsync` / `flatMapNotNull` / `all` drive that iterator.

Shallow embedding conventions:
* A page envelope is a record of the two fields the code reads: the value at
  the configured data field (absent or an array) and the value at the
  configured next field (absent or a string).
* A page fetcher is modelled as a pure function of the call index and the
  cursor, `Nat → Option String → Except E (Envelope T)`; the call index
  reproduces any deterministic stateful fetcher (e.g. test stubs answering by
  call count), since along a run every call is determined by its index.
* JavaScript `await`/Promise sequencing disappears; Promise rejection is the
  `Except.error` case.  `undefined` becomes `Option.none`.  JS truthiness of
  mapped values of type `R` is an explicit parameter `tr : R → Bool`
  (`undefined` itself is always falsy), truthiness of an optional string is
  `s ≠ ""`, truthiness of the optional numeric `limit` is `n ≠ 0`.
* Loops `for await (const page of this) ...` become fuel-indexed recursion;
  `none` means the fuel ran out before the run finished.
* Reading `.length` of an absent data field, which throws a `TypeError` in
  JavaScript, becomes the error `RunError.undefinedLength`.
-/

namespace SpacePagination

/-- The two envelope fields the iterator reads: `result[config.dataField]`
(absent or an array) and `result[config.nextField]` (absent or a string). -/
structure Envelope (T : Type) where
  dataF : Option (List T)
  nextF : Option String
  deriving DecidableEq

/-- Outcome of a failed step: either the page fetcher rejected with its own
error `e`, or the envelope had no data field and `data.length` threw a
`TypeError` (reading `length` of `undefined`). -/
inductive RunError (E : Type) where
  | fetchError (e : E)
  | undefinedLength
  deriving DecidableEq

/-- A page fetcher: call index and cursor to envelope or failure. -/
def Fetcher (E T : Type) : Type := Nat → Option String → Except E (Envelope T)

/-- One `PaginatedIterator.next()` call at call index `i` with stored cursor
`cur`: fetch, read the next-cursor field (the new cursor), extract the data
array, report `done := data.length === 0`.  An absent data field throws. -/
def stepNext (fetch : Fetcher E T) (i : Nat) (cur : Option String) :
    Except (RunError E) (List T × Bool × Option String) :=
  match fetch i cur with
  | .error e => .error (.fetchError e)
  | .ok env =>
    match env.dataF with
    | none => .error .undefinedLength
    | some data => .ok (data, data.length == 0, env.nextF)

/-- JS truthiness of `limit && result.length >= limit`: skipped when `limit`
is absent or `0` (falsy), otherwise compares the accumulator length. -/
def limitHit : Option Nat → Nat → Bool
  | none, _ => false
  | some n, len => n != 0 && n ≤ len

/-- The inner element loop of `flatMapNotNull`: map each element, push the
result when truthy (`if (mapped)`), and after every element return early when
`limit && result.length >= limit`.  The Bool records the early return. -/
def processPage (m : T → Option R) (tr : R → Bool) (limit : Option Nat) :
    List R → List T → List R × Bool
  | acc, [] => (acc, false)
  | acc, e :: rest =>
    let acc2 := match m e with
      | some r => if tr r then acc ++ [r] else acc
      | none => acc
    if limitHit limit acc2.length then (acc2, true)
    else processPage m tr limit acc2 rest

/-- Folds `processPage` over a list of pages, stopping at an early return. -/
def processPages (m : T → Option R) (tr : R → Bool) (limit : Option Nat) :
    List R → List (List T) → List R × Bool
  | acc, [] => (acc, false)
  | acc, p :: ps =>
    match processPage m tr limit acc p with
    | (acc2, true) => (acc2, true)
    | (acc2, false) => processPages m tr limit acc2 ps

/-- The `for await` loop of `flatMapNotNull`, fuelled.  Returns the
accumulated results together with the number of fetch calls issued; `none`
means the fuel was exhausted before the run ended. -/
def flatMapLoop (fetch : Fetcher E T) (m : T → Option R) (tr : R → Bool)
    (limit : Option Nat) :
    Nat → Nat → Option String → List R → Option (Except (RunError E) (List R × Nat))
  | 0, _, _, _ => none
  | fuel + 1, i, cur, acc =>
    match stepNext fetch i cur with
    | .error er => some (.error er)
    | .ok (data, done, newCur) =>
      if done then some (.ok (acc, i + 1))
      else
        match processPage m tr limit acc data with
        | (acc2, true) => some (.ok (acc2, i + 1))
        | (acc2, false) => flatMapLoop fetch m tr limit fuel (i + 1) newCur acc2

/-- `flatMapNotNull(mapper, limit)`: run the loop from a fresh iterator
(cursor absent, zero calls issued) with an empty accumulator. -/
def flatMapNotNull (fetch : Fetcher E T) (m : T → Option R) (tr : R → Bool)
    (limit : Option Nat) (fuel : Nat) : Option (Except (RunError E) (List R × Nat)) :=
  flatMapLoop fetch m tr limit fuel 0 none []

/-- `all()`: `flatMapNotNull` with the identity mapper and no limit; `tr` is
the JS truthiness of elements of `T`. -/
def all (fetch : Fetcher E T) (tr : T → Bool) (fuel : Nat) :
    Option (Except (RunError E) (List T × Nat)) :=
  flatMapNotNull fetch some tr none fuel

/-- The `for await` loop of `findFirstAsync`, fuelled: per page, scan the
elements in order for the first one satisfying the predicate. -/
def findFirstLoop (fetch : Fetcher E T) (pred : T → Bool) :
    Nat → Nat → Option String → Option (Except (RunError E) (Option T × Nat))
  | 0, _, _ => none
  | fuel + 1, i, cur =>
    match stepNext fetch i cur with
    | .error er => some (.error er)
    | .ok (data, done, newCur) =>
      if done then some (.ok (none, i + 1))
      else
        match data.find? pred with
        | some x => some (.ok (some x, i + 1))
        | none => findFirstLoop fetch pred fuel (i + 1) newCur

/-- `findFirstAsync(predicate)`: run from a fresh iterator.  The result also
carries the number of fetch calls issued. -/
def findFirstAsync (fetch : Fetcher E T) (pred : T → Bool) (fuel : Nat) :
    Option (Except (RunError E) (Option T × Nat)) :=
  findFirstLoop fetch pred fuel 0 none

/-- `findFirst(predicate)` delegates to `findFirstAsync` with the same
predicate wrapped in a resolved promise. -/
def findFirst (fetch : Fetcher E T) (pred : T → Bool) (fuel : Nat) :
    Option (Except (RunError E) (Option T × Nat)) :=
  findFirstAsync fetch pred fuel

/-- The successful cursor chain: `Chain fetch i cur ps curE` says that
starting at call index `i` with cursor `cur`, the fetcher answers with
successful envelopes carrying the non-empty data pages `ps` in order, each
step passing the envelope's next-cursor field on, ending ready to issue call
`i + ps.length` with cursor `curE`. -/
inductive Chain (fetch : Fetcher E T) :
    Nat → Option String → List (List T) → Option String → Prop
  | nil (i : Nat) (cur : Option String) : Chain fetch i cur [] cur
  | cons (i : Nat) (cur : Option String) (env : Envelope T) (p : List T)
      (ps : List (List T)) (curE : Option String) :
      fetch i cur = .ok env → env.dataF = some p → p ≠ [] →
      Chain fetch (i + 1) env.nextF ps curE → Chain fetch i cur (p :: ps) curE

/-- The results `flatMapNotNull` keeps from one page when no limit applies:
the mapped values that are truthy. -/
def keptList (m : T → Option R) (tr : R → Bool) (p : List T) : List R :=
  p.filterMap fun e => match m e with
    | some r => if tr r then some r else none
    | none => none

end SpacePagination

namespace SpacePagination

/-! URL construction (`fromUsing`). -/

/-- Characters `encodeURIComponent` leaves unescaped:
`A-Z a-z 0-9 - _ . ! ~ * ' ( )`. -/
def isUnreserved (c : Char) : Bool :=
  let n := c.toNat
  decide (65 ≤ n ∧ n ≤ 90) || decide (97 ≤ n ∧ n ≤ 122) ||
  decide (48 ≤ n ∧ n ≤ 57) ||
  decide (n = 45 ∨ n = 95 ∨ n = 46 ∨ n = 33 ∨ n = 126 ∨ n = 42 ∨ n = 39 ∨
    n = 40 ∨ n = 41)

/-- One hexadecimal digit, upper case. -/
def hexDigit (n : Nat) : Char :=
  Char.ofNat (if n < 10 then 48 + n else 55 + n)

/-- Percent-escape of one byte. -/
def percentByte (n : Nat) : String :=
  String.mk ['%', hexDigit (n / 16), hexDigit (n % 16)]

/-- UTF-8 bytes of a code point. -/
def utf8Bytes (n : Nat) : List Nat :=
  if n < 128 then [n]
  else if n < 2048 then [192 + n / 64, 128 + n % 64]
  else if n < 65536 then [224 + n / 4096, 128 + n / 64 % 64, 128 + n % 64]
  else [240 + n / 262144, 128 + n / 4096 % 64, 128 + n / 64 % 64, 128 + n % 64]

/-- JavaScript `encodeURIComponent`: unreserved characters kept, every other
character percent-escaped byte by byte. -/
def encodeURIComponent (s : String) : String :=
  String.join (s.toList.map fun c =>
    if isUnreserved c then String.singleton c
    else String.join ((utf8Bytes c.toNat).map percentByte))

/-- JS truthiness of the optional cursor string (`if (next)`). -/
def strTruthy : Option String → Bool
  | none => false
  | some s => s != ""

/-- The request path built by the closure of `fromUsing`: when the cursor is
truthy it is appended percent-encoded under the (percent-encoded) query
parameter, with `&` when `basePath` already contains `?` and `?` otherwise. -/
def buildPath (basePath encQP : String) (hasQuery : Bool) :
    Option String → String
  | some s =>
    if s != "" then
      basePath ++ (if hasQuery then "&" else "?") ++ encQP ++ "=" ++
        encodeURIComponent s
    else basePath
  | none => basePath

/-- The page fetcher built by `fromUsing`: `hasQuery` and the encoded query
parameter are computed once from `basePath` and the configuration, then every
call requests `buildPath` of the current cursor from the HTTP layer. -/
def fromUsingFetch (http : String → Except E (Envelope T)) (basePath qp : String) :
    Option String → Except E (Envelope T) :=
  let hasQuery := basePath.toList.contains '?'
  let encQP := encodeURIComponent qp
  fun next => http (buildPath basePath encQP hasQuery next)

/-! Iterator aliasing model (for iterator independence).

`PaginatedIterable[Symbol.asyncIterator]` allocates a `new PaginatedIterator`
whose mutable field `nextQuery` starts `undefined`.  The store below is the
heap of those per-iterator fields: one optional cursor per allocated
iterator.  `storeStep` is `PaginatedIterator.next()` acting on iterator `i`:
it reads only slot `i` and writes only slot `i` (fetchers here are functions
of the cursor alone, as a single iterator never sees the call index). -/

/-- `iterate()` on the iterable: allocate a fresh iterator whose `nextQuery`
field is `undefined`; returns the new store and the new iterator's id. -/
def iterate (sto : List (Option String)) : List (Option String) × Nat :=
  (sto ++ [none], sto.length)

/-- `next()` on iterator `i`: fetch with slot `i`'s cursor, store the
envelope's next-cursor field back into slot `i`, then extract the data and
the `done` flag.  The first component is the observed step outcome (`none`
only for an unallocated id). -/
def storeStep (fetch : Option String → Except E (Envelope T)) (i : Nat)
    (sto : List (Option String)) :
    Option (Except (RunError E) (List T × Bool)) × List (Option String) :=
  match sto[i]? with
  | none => (none, sto)
  | some cur =>
    match fetch cur with
    | .error e => (some (.error (.fetchError e)), sto)
    | .ok env =>
      let sto2 := sto.set i env.nextF
      match env.dataF with
      | none => (some (.error .undefinedLength), sto2)
      | some data => (some (.ok (data, data.length == 0)), sto2)

end SpacePagination

namespace SpacePagination

/-! Concrete fetchers and stores used to instantiate the theorems below,
and decidable equality for `Except` so that runs can be compared by `decide`. -/

instance {ε α : Type} [DecidableEq ε] [DecidableEq α] : DecidableEq (Except ε α) := fun a b =>
  match a, b with
  | .error x, .error y =>
    if h : x = y then .isTrue (by rw [h])
    else .isFalse (by intro hh; injection hh with h2; exact h h2)
  | .ok x, .ok y =>
    if h : x = y then .isTrue (by rw [h])
    else .isFalse (by intro hh; injection hh with h2; exact h h2)
  | .error _, .ok _ => .isFalse (by intro hh; exact Except.noConfusion hh)
  | .ok _, .error _ => .isFalse (by intro hh; exact Except.noConfusion hh)

def cexFetchC1 : Fetcher Unit Nat
  | 0, _ => .ok ⟨some [0], some "c1"⟩
  | _, _ => .ok ⟨some [], none⟩

def specFetchC1 : Fetcher Unit String
  | 0, _ => .ok ⟨some ["A", "B"], some "c1"⟩
  | 1, _ => .ok ⟨some ["C"], none⟩
  | _, _ => .ok ⟨some [], none⟩

def w2fetch : Fetcher Unit Nat
  | 0, _ => .ok ⟨some [5], none⟩
  | _, _ => .ok ⟨some [], none⟩

def w9fetch : Fetcher Unit Nat
  | 0, _ => .ok ⟨some [0, 1, 2], some "x"⟩
  | _, _ => .ok ⟨some [], none⟩

def w3fetch : Fetcher Unit String
  | 0, _ => .ok ⟨some ["a", "b", "c"], some "c1"⟩
  | _, _ => .error ()

def w4fetch : Fetcher Unit Nat
  | 0, _ => .ok ⟨some [1, 2], some "c1"⟩
  | 1, _ => .ok ⟨some [3, 4], some "c2"⟩
  | _, _ => .error ()

def w4bfetch : Fetcher Unit Nat := fun _ _ => .ok ⟨some [], none⟩

def w6fetch : Fetcher String Nat
  | 0, _ => .ok ⟨some [7], some "c1"⟩
  | _, _ => .error "boom"

def cexHttpC5 : String → Except Unit (Envelope String) :=
  fun path =>
    if path == "api/items" then .ok ⟨some ["p1"], some ""⟩
    else .ok ⟨some [path], none⟩

def w5http : String → Except Unit (Envelope String) :=
  fun path => .ok ⟨some [path], some "a b"⟩

def cexFetchC7 : Fetcher Unit Nat := fun _ _ => .ok ⟨none, some "x"⟩

def w8fetch : Option String → Except Unit (Envelope Nat) :=
  fun _ => .ok ⟨some [1], some "y"⟩

end SpacePagination

namespace SpacePagination

/-! Helper lemmas about the loops, followed by one theorem per claim
(with its witness or counterexample). -/

theorem length_beq_zero_false {T : Type} {p : List T} (h : p ≠ []) :
    (p.length == 0) = false := by
  cases p with
  | nil => exact absurd rfl h
  | cons a l => rfl

theorem flatMapLoop_chain_ok {E T R : Type} {fetch : Fetcher E T}
    (m : T → Option R) (tr : R → Bool) (limit : Option Nat)
    {i : Nat} {cur : Option String} {ps : List (List T)} {curE : Option String}
    (hc : Chain fetch i cur ps curE) :
    ∀ (acc accF : List R) (envE : Envelope T) (fuel : Nat),
      processPages m tr limit acc ps = (accF, false) →
      fetch (i + ps.length) curE = .ok envE →
      envE.dataF = some [] →
      ps.length + 1 ≤ fuel →
      flatMapLoop fetch m tr limit fuel i cur acc = some (.ok (accF, i + ps.length + 1)) := by
  induction hc with
  | nil j cur2 =>
    intro acc accF envE fuel hpp hf hd hfuel
    obtain ⟨f, rfl⟩ : ∃ f, fuel = f + 1 := ⟨fuel - 1, by omega⟩
    simp only [processPages, Prod.mk.injEq] at hpp
    obtain ⟨rfl, -⟩ := hpp
    simp only [List.length_nil, Nat.add_zero] at hf ⊢
    simp [flatMapLoop, stepNext, hf, hd]
  | cons j cur2 env p ps2 curE2 hf hd hp hrest ih =>
    intro acc accF envE fuel hpp hfE hdE hfuel
    obtain ⟨f, rfl⟩ : ∃ f, fuel = f + 1 := ⟨fuel - 1, by omega⟩
    rcases h2 : processPage m tr limit acc p with ⟨acc2, early⟩
    simp only [processPages, h2] at hpp
    cases early with
    | true => simp at hpp
    | false =>
      have hfE2 : fetch ((j + 1) + ps2.length) curE2 = .ok envE := by
        have : (j + 1) + ps2.length = j + (p :: ps2).length := by
          simp only [List.length_cons]; omega
        rw [this]; exact hfE
      have hrec := ih acc2 accF envE f hpp hfE2 hdE
        (by simp only [List.length_cons] at hfuel ⊢; omega)
      simp only [flatMapLoop, stepNext, hf, hd, length_beq_zero_false hp, h2]
      simp only [Bool.false_eq_true, if_false]
      rw [hrec]
      have : (j + 1) + ps2.length + 1 = j + (p :: ps2).length + 1 := by
        simp only [List.length_cons]; omega
      rw [this]

theorem flatMapLoop_chain_early {E T R : Type} {fetch : Fetcher E T}
    (m : T → Option R) (tr : R → Bool) (limit : Option Nat)
    {i : Nat} {cur : Option String} {ps : List (List T)} {curE : Option String}
    (hc : Chain fetch i cur ps curE) :
    ∀ (acc accF acc2 : List R) (envE : Envelope T) (p : List T) (fuel : Nat),
      processPages m tr limit acc ps = (accF, false) →
      fetch (i + ps.length) curE = .ok envE →
      envE.dataF = some p → p ≠ [] →
      processPage m tr limit accF p = (acc2, true) →
      ps.length + 1 ≤ fuel →
      flatMapLoop fetch m tr limit fuel i cur acc = some (.ok (acc2, i + ps.length + 1)) := by
  induction hc with
  | nil j cur2 =>
    intro acc accF acc2 envE p fuel hpp hf hd hp hpage hfuel
    obtain ⟨f, rfl⟩ : ∃ f, fuel = f + 1 := ⟨fuel - 1, by omega⟩
    simp only [processPages, Prod.mk.injEq] at hpp
    obtain ⟨rfl, -⟩ := hpp
    simp only [List.length_nil, Nat.add_zero] at hf ⊢
    simp [flatMapLoop, stepNext, hf, hd, length_beq_zero_false hp, hpage]
  | cons j cur2 env p0 ps2 curE2 hf hd hp0 hrest ih =>
    intro acc accF acc2 envE p fuel hpp hfE hdE hp hpage hfuel
    obtain ⟨f, rfl⟩ : ∃ f, fuel = f + 1 := ⟨fuel - 1, by omega⟩
    rcases h2 : processPage m tr limit acc p0 with ⟨accM, early⟩
    simp only [processPages, h2] at hpp
    cases early with
    | true => simp at hpp
    | false =>
      have hfE2 : fetch ((j + 1) + ps2.length) curE2 = .ok envE := by
        have : (j + 1) + ps2.length = j + (p0 :: ps2).length := by
          simp only [List.length_cons]; omega
        rw [this]; exact hfE
      have hrec := ih accM accF acc2 envE p f hpp hfE2 hdE hp hpage
        (by simp only [List.length_cons] at hfuel ⊢; omega)
      simp only [flatMapLoop, stepNext, hf, hd, length_beq_zero_false hp0, h2]
      simp only [Bool.false_eq_true, if_false]
      rw [hrec]
      have : (j + 1) + ps2.length + 1 = j + (p0 :: ps2).length + 1 := by
        simp only [List.length_cons]; omega
      rw [this]

theorem flatMapLoop_chain_err {E T R : Type} {fetch : Fetcher E T}
    (m : T → Option R) (tr : R → Bool) (limit : Option Nat)
    {i : Nat} {cur : Option String} {ps : List (List T)} {curE : Option String}
    (hc : Chain fetch i cur ps curE) :
    ∀ (acc accF : List R) (e : E) (fuel : Nat),
      processPages m tr limit acc ps = (accF, false) →
      fetch (i + ps.length) curE = .error e →
      ps.length + 1 ≤ fuel →
      flatMapLoop fetch m tr limit fuel i cur acc = some (.error (.fetchError e)) := by
  induction hc with
  | nil j cur2 =>
    intro acc accF e fuel hpp hf hfuel
    obtain ⟨f, rfl⟩ : ∃ f, fuel = f + 1 := ⟨fuel - 1, by omega⟩
    simp only [List.length_nil, Nat.add_zero] at hf
    simp [flatMapLoop, stepNext, hf]
  | cons j cur2 env p0 ps2 curE2 hf hd hp0 hrest ih =>
    intro acc accF e fuel hpp hfE hfuel
    obtain ⟨f, rfl⟩ : ∃ f, fuel = f + 1 := ⟨fuel - 1, by omega⟩
    rcases h2 : processPage m tr limit acc p0 with ⟨accM, early⟩
    simp only [processPages, h2] at hpp
    cases early with
    | true => simp at hpp
    | false =>
      have hfE2 : fetch ((j + 1) + ps2.length) curE2 = .error e := by
        have : (j + 1) + ps2.length = j + (p0 :: ps2).length := by
          simp only [List.length_cons]; omega
        rw [this]; exact hfE
      have hrec := ih accM accF e f hpp hfE2
        (by simp only [List.length_cons] at hfuel ⊢; omega)
      simp only [flatMapLoop, stepNext, hf, hd, length_beq_zero_false hp0, h2]
      simp only [Bool.false_eq_true, if_false]
      exact hrec

theorem flatMapLoop_chain_undef {E T R : Type} {fetch : Fetcher E T}
    (m : T → Option R) (tr : R → Bool) (limit : Option Nat)
    {i : Nat} {cur : Option String} {ps : List (List T)} {curE : Option String}
    (hc : Chain fetch i cur ps curE) :
    ∀ (acc accF : List R) (envE : Envelope T) (fuel : Nat),
      processPages m tr limit acc ps = (accF, false) →
      fetch (i + ps.length) curE = .ok envE →
      envE.dataF = none →
      ps.length + 1 ≤ fuel →
      flatMapLoop fetch m tr limit fuel i cur acc = some (.error .undefinedLength) := by
  induction hc with
  | nil j cur2 =>
    intro acc accF envE fuel hpp hf hd hfuel
    obtain ⟨f, rfl⟩ : ∃ f, fuel = f + 1 := ⟨fuel - 1, by omega⟩
    simp only [List.length_nil, Nat.add_zero] at hf
    simp [flatMapLoop, stepNext, hf, hd]
  | cons j cur2 env p0 ps2 curE2 hf hd hp0 hrest ih =>
    intro acc accF envE fuel hpp hfE hdE hfuel
    obtain ⟨f, rfl⟩ : ∃ f, fuel = f + 1 := ⟨fuel - 1, by omega⟩
    rcases h2 : processPage m tr limit acc p0 with ⟨accM, early⟩
    simp only [processPages, h2] at hpp
    cases early with
    | true => simp at hpp
    | false =>
      have hfE2 : fetch ((j + 1) + ps2.length) curE2 = .ok envE := by
        have : (j + 1) + ps2.length = j + (p0 :: ps2).length := by
          simp only [List.length_cons]; omega
        rw [this]; exact hfE
      have hrec := ih accM accF envE f hpp hfE2 hdE
        (by simp only [List.length_cons] at hfuel ⊢; omega)
      simp only [flatMapLoop, stepNext, hf, hd, length_beq_zero_false hp0, h2]
      simp only [Bool.false_eq_true, if_false]
      exact hrec

theorem findFirstLoop_chain_found {E T : Type} {fetch : Fetcher E T}
    (pred : T → Bool)
    {i : Nat} {cur : Option String} {ps : List (List T)} {curE : Option String}
    (hc : Chain fetch i cur ps curE) :
    ∀ (envE : Envelope T) (p : List T) (x : T) (fuel : Nat),
      (∀ q ∈ ps, q.find? pred = none) →
      fetch (i + ps.length) curE = .ok envE →
      envE.dataF = some p →
      p.find? pred = some x →
      ps.length + 1 ≤ fuel →
      findFirstLoop fetch pred fuel i cur = some (.ok (some x, i + ps.length + 1)) := by
  induction hc with
  | nil j cur2 =>
    intro envE p x fuel hnm hf hd hfind hfuel
    obtain ⟨f, rfl⟩ : ∃ f, fuel = f + 1 := ⟨fuel - 1, by omega⟩
    simp only [List.length_nil, Nat.add_zero] at hf ⊢
    have hp : p ≠ [] := by
      intro h; rw [h] at hfind; simp [List.find?] at hfind
    simp [findFirstLoop, stepNext, hf, hd, length_beq_zero_false hp, hfind]
  | cons j cur2 env p0 ps2 curE2 hf hd hp0 hrest ih =>
    intro envE p x fuel hnm hfE hdE hfind hfuel
    obtain ⟨f, rfl⟩ : ∃ f, fuel = f + 1 := ⟨fuel - 1, by omega⟩
    have hfE2 : fetch ((j + 1) + ps2.length) curE2 = .ok envE := by
      have : (j + 1) + ps2.length = j + (p0 :: ps2).length := by
        simp only [List.length_cons]; omega
      rw [this]; exact hfE
    have hrec := ih envE p x f (fun q hq => hnm q (List.mem_cons_of_mem _ hq)) hfE2 hdE hfind
      (by simp only [List.length_cons] at hfuel ⊢; omega)
    have hnm0 : p0.find? pred = none := hnm p0 (List.mem_cons_self _ _)
    simp only [findFirstLoop, stepNext, hf, hd, length_beq_zero_false hp0, hnm0]
    simp only [Bool.false_eq_true, if_false]
    rw [hrec]
    have : (j + 1) + ps2.length + 1 = j + (p0 :: ps2).length + 1 := by
      simp only [List.length_cons]; omega
    rw [this]

theorem findFirstLoop_chain_none {E T : Type} {fetch : Fetcher E T}
    (pred : T → Bool)
    {i : Nat} {cur : Option String} {ps : List (List T)} {curE : Option String}
    (hc : Chain fetch i cur ps curE) :
    ∀ (envE : Envelope T) (fuel : Nat),
      (∀ q ∈ ps, q.find? pred = none) →
      fetch (i + ps.length) curE = .ok envE →
      envE.dataF = some [] →
      ps.length + 1 ≤ fuel →
      findFirstLoop fetch pred fuel i cur = some (.ok (none, i + ps.length + 1)) := by
  induction hc with
  | nil j cur2 =>
    intro envE fuel hnm hf hd hfuel
    obtain ⟨f, rfl⟩ : ∃ f, fuel = f + 1 := ⟨fuel - 1, by omega⟩
    simp only [List.length_nil, Nat.add_zero] at hf ⊢
    simp [findFirstLoop, stepNext, hf, hd]
  | cons j cur2 env p0 ps2 curE2 hf hd hp0 hrest ih =>
    intro envE fuel hnm hfE hdE hfuel
    obtain ⟨f, rfl⟩ : ∃ f, fuel = f + 1 := ⟨fuel - 1, by omega⟩
    have hfE2 : fetch ((j + 1) + ps2.length) curE2 = .ok envE := by
      have : (j + 1) + ps2.length = j + (p0 :: ps2).length := by
        simp only [List.length_cons]; omega
      rw [this]; exact hfE
    have hrec := ih envE f (fun q hq => hnm q (List.mem_cons_of_mem _ hq)) hfE2 hdE
      (by simp only [List.length_cons] at hfuel ⊢; omega)
    have hnm0 : p0.find? pred = none := hnm p0 (List.mem_cons_self _ _)
    simp only [findFirstLoop, stepNext, hf, hd, length_beq_zero_false hp0, hnm0]
    simp only [Bool.false_eq_true, if_false]
    rw [hrec]
    have : (j + 1) + ps2.length + 1 = j + (p0 :: ps2).length + 1 := by
      simp only [List.length_cons]; omega
    rw [this]

theorem findFirstLoop_chain_err {E T : Type} {fetch : Fetcher E T}
    (pred : T → Bool)
    {i : Nat} {cur : Option String} {ps : List (List T)} {curE : Option String}
    (hc : Chain fetch i cur ps curE) :
    ∀ (e : E) (fuel : Nat),
      (∀ q ∈ ps, q.find? pred = none) →
      fetch (i + ps.length) curE = .error e →
      ps.length + 1 ≤ fuel →
      findFirstLoop fetch pred fuel i cur = some (.error (.fetchError e)) := by
  induction hc with
  | nil j cur2 =>
    intro e fuel hnm hf hfuel
    obtain ⟨f, rfl⟩ : ∃ f, fuel = f + 1 := ⟨fuel - 1, by omega⟩
    simp only [List.length_nil, Nat.add_zero] at hf
    simp [findFirstLoop, stepNext, hf]
  | cons j cur2 env p0 ps2 curE2 hf hd hp0 hrest ih =>
    intro e fuel hnm hfE hfuel
    obtain ⟨f, rfl⟩ : ∃ f, fuel = f + 1 := ⟨fuel - 1, by omega⟩
    have hfE2 : fetch ((j + 1) + ps2.length) curE2 = .error e := by
      have : (j + 1) + ps2.length = j + (p0 :: ps2).length := by
        simp only [List.length_cons]; omega
      rw [this]; exact hfE
    have hrec := ih e f (fun q hq => hnm q (List.mem_cons_of_mem _ hq)) hfE2
      (by simp only [List.length_cons] at hfuel ⊢; omega)
    have hnm0 : p0.find? pred = none := hnm p0 (List.mem_cons_self _ _)
    simp only [findFirstLoop, stepNext, hf, hd, length_beq_zero_false hp0, hnm0]
    simp only [Bool.false_eq_true, if_false]
    exact hrec

theorem processPage_noLimit {T R : Type} (m : T → Option R) (tr : R → Bool) :
    ∀ (p : List T) (acc : List R),
      processPage m tr none acc p = (acc ++ keptList m tr p, false)
  | [], acc => by simp [processPage, keptList]
  | e :: rest, acc => by
    have ih := processPage_noLimit m tr rest
    cases hm : m e with
    | none =>
      simp [processPage, limitHit, keptList, List.filterMap_cons, hm, ih]
    | some r =>
      cases htr : tr r <;>
        simp [processPage, limitHit, keptList, List.filterMap_cons, hm, htr, ih]

theorem processPages_noLimit {T R : Type} (m : T → Option R) (tr : R → Bool) :
    ∀ (ps : List (List T)) (acc : List R),
      processPages m tr none acc ps = (acc ++ (ps.map (keptList m tr)).flatten, false)
  | [], acc => by simp [processPages]
  | p :: ps, acc => by
    have ih := processPages_noLimit m tr ps
    simp [processPages, processPage_noLimit, ih]

theorem keptList_some {T : Type} (tr : T → Bool) :
    ∀ (p : List T), keptList some tr p = p.filter tr
  | [] => rfl
  | e :: rest => by
    have ih := keptList_some tr rest
    simp only [keptList, List.filterMap_cons] at ih ⊢
    cases htr : tr e <;> simp [htr, List.filter_cons, ih]

theorem keptList_some_flatten {T : Type} (tr : T → Bool) (ps : List (List T)) :
    (ps.map (keptList some tr)).flatten = ps.flatten.filter tr := by
  have : ps.map (keptList some tr) = ps.map (List.filter tr) := by
    apply List.map_congr_left
    intro p _
    exact keptList_some tr p
  rw [this, List.filter_flatten]

theorem processPage_limit_zero {T R : Type} (m : T → Option R) (tr : R → Bool) :
    ∀ (p : List T) (acc : List R),
      processPage m tr (some 0) acc p = processPage m tr none acc p
  | [], acc => by simp [processPage]
  | e :: rest, acc => by
    simp only [processPage, limitHit]
    exact processPage_limit_zero m tr rest _

theorem processPages_limit_zero {T R : Type} (m : T → Option R) (tr : R → Bool) :
    ∀ (ps : List (List T)) (acc : List R),
      processPages m tr (some 0) acc ps = processPages m tr none acc ps
  | [], _ => rfl
  | p :: ps, acc => by
    simp only [processPages, processPage_limit_zero]
    rcases processPage m tr none acc p with ⟨acc2, early⟩
    cases early with
    | true => rfl
    | false => exact processPages_limit_zero m tr ps acc2

theorem flatMapLoop_limit_zero {E T R : Type} (fetch : Fetcher E T)
    (m : T → Option R) (tr : R → Bool) :
    ∀ (fuel i : Nat) (cur : Option String) (acc : List R),
      flatMapLoop fetch m tr (some 0) fuel i cur acc =
        flatMapLoop fetch m tr none fuel i cur acc
  | 0, _, _, _ => rfl
  | fuel + 1, i, cur, acc => by
    simp only [flatMapLoop, processPage_limit_zero]
    rcases stepNext fetch i cur with er | ⟨data, done, newCur⟩
    · rfl
    · cases done with
      | true => simp
      | false =>
        simp only [Bool.false_eq_true, if_false]
        rcases processPage m tr none acc data with ⟨acc2, early⟩
        cases early with
        | true => rfl
        | false => exact flatMapLoop_limit_zero fetch m tr fuel (i + 1) newCur acc2

theorem limitHit_false_iff {n len : Nat} (hn : 0 < n) :
    limitHit (some n) len = false ↔ len < n := by
  simp only [limitHit, Bool.and_eq_false_iff, bne_eq_false_iff_eq,
    decide_eq_false_iff_not, not_le]
  omega

theorem limitHit_true_iff {n len : Nat} (hn : 0 < n) :
    limitHit (some n) len = true ↔ n ≤ len := by
  simp only [limitHit, Bool.and_eq_true, bne_iff_ne, ne_eq, decide_eq_true_eq]
  omega

theorem processPage_early_len {T R : Type} (m : T → Option R) (tr : R → Bool)
    {n : Nat} (hn : 0 < n) :
    ∀ (p : List T) (acc acc2 : List R),
      acc.length < n →
      processPage m tr (some n) acc p = (acc2, true) →
      acc2.length = n
  | [], acc, acc2, hlt, h => by simp [processPage] at h
  | e :: rest, acc, acc2, hlt, h => by
    have step : ∀ acc3 : List R, acc3.length ≤ acc.length + 1 →
        (if limitHit (some n) acc3.length = true then (acc3, true)
          else processPage m tr (some n) acc3 rest) = (acc2, true) →
        acc2.length = n := by
      intro acc3 hlen3 h3
      rcases hhit : limitHit (some n) acc3.length with _ | _
      · rw [hhit] at h3
        simp only [Bool.false_eq_true, if_false] at h3
        exact processPage_early_len m tr hn rest acc3 acc2
          ((limitHit_false_iff hn).mp hhit) h3
      · rw [hhit] at h3
        simp only [if_true] at h3
        have heq : acc3 = acc2 := by injection h3
        subst heq
        have h2 : n ≤ acc3.length := (limitHit_true_iff hn).mp hhit
        omega
    rcases hm : m e with _ | r
    · simp only [processPage, hm] at h
      exact step acc (by omega) h
    · rcases htr : tr r with _ | _
      · simp only [processPage, hm, htr, if_false] at h
        exact step acc (by omega) h
      · simp only [processPage, hm, htr, if_true] at h
        exact step (acc ++ [r]) (by simp) h

theorem processPage_noEarly_len {T R : Type} (m : T → Option R) (tr : R → Bool)
    {n : Nat} (hn : 0 < n) :
    ∀ (p : List T) (acc acc2 : List R),
      acc.length < n →
      processPage m tr (some n) acc p = (acc2, false) →
      acc2.length < n
  | [], acc, acc2, hlt, h => by
    simp only [processPage, Prod.mk.injEq] at h
    obtain ⟨rfl, -⟩ := h
    exact hlt
  | e :: rest, acc, acc2, hlt, h => by
    have step : ∀ acc3 : List R,
        (if limitHit (some n) acc3.length = true then (acc3, true)
          else processPage m tr (some n) acc3 rest) = (acc2, false) →
        acc2.length < n := by
      intro acc3 h3
      rcases hhit : limitHit (some n) acc3.length with _ | _
      · rw [hhit] at h3
        simp only [Bool.false_eq_true, if_false] at h3
        exact processPage_noEarly_len m tr hn rest acc3 acc2
          ((limitHit_false_iff hn).mp hhit) h3
      · rw [hhit] at h3
        simp at h3
    rcases hm : m e with _ | r
    · simp only [processPage, hm] at h
      exact step acc h
    · rcases htr : tr r with _ | _
      · simp only [processPage, hm, htr, if_false] at h
        exact step acc h
      · simp only [processPage, hm, htr, if_true] at h
        exact step (acc ++ [r]) h

theorem processPages_noEarly_len {T R : Type} (m : T → Option R) (tr : R → Bool)
    {n : Nat} (hn : 0 < n) :
    ∀ (ps : List (List T)) (acc acc2 : List R),
      acc.length < n →
      processPages m tr (some n) acc ps = (acc2, false) →
      acc2.length < n
  | [], acc, acc2, hlt, h => by
    simp only [processPages, Prod.mk.injEq] at h
    obtain ⟨rfl, -⟩ := h
    exact hlt
  | p :: ps, acc, acc2, hlt, h => by
    rcases h2 : processPage m tr (some n) acc p with ⟨accM, early⟩
    simp only [processPages, h2] at h
    cases early with
    | true => simp at h
    | false =>
      exact processPages_noEarly_len m tr hn ps accM acc2
        (processPage_noEarly_len m tr hn p acc accM hlt h2) h

theorem all_chain_spec {E T : Type} (fetch : Fetcher E T) (tr : T → Bool)
    {ps : List (List T)} {curE : Option String}
    (hc : Chain fetch 0 none ps curE) (envE : Envelope T) (fuel : Nat)
    (hf : fetch ps.length curE = .ok envE) (hd : envE.dataF = some [])
    (hfuel : ps.length + 1 ≤ fuel) :
    all fetch tr fuel = some (.ok (ps.flatten.filter tr, ps.length + 1)) := by
  have hpp := processPages_noLimit some tr ps []
  rw [keptList_some_flatten] at hpp
  simp only [List.nil_append] at hpp
  have := flatMapLoop_chain_ok some tr none hc [] (ps.flatten.filter tr) envE fuel
    hpp (by simpa using hf) hd hfuel
  simpa [all, flatMapNotNull] using this

/-- Claim C1 as stated is false: `all()` keeps only truthy elements, so a page
holding the number `0` is not returned whole.  Over the fetcher yielding page
`[0]` then `[]`, `all()` returns `[]` after 2 calls, not the concatenation
`[0]`. -/
theorem c1_counterexample :
    all cexFetchC1 (fun x => x != 0) 5 = some (.ok ([], 2)) ∧
      ([] : List Nat) ≠ [0] := ⟨rfl, by decide⟩

/-- Claim C1 (amended): for every page fetcher whose cursor chain yields the
non-empty pages `ps` and then an empty page, `all()` returns the concatenation
of those pages in encounter order restricted to its truthy elements, issuing
exactly one fetch call per page including the terminating empty page. -/
theorem c1_all_materializes {E T : Type} (fetch : Fetcher E T) (tr : T → Bool)
    (ps : List (List T)) (curE : Option String) (envE : Envelope T) (fuel : Nat)
    (hc : Chain fetch 0 none ps curE)
    (hf : fetch ps.length curE = .ok envE) (hd : envE.dataF = some [])
    (hfuel : ps.length + 1 ≤ fuel) :
    all fetch tr fuel = some (.ok (ps.flatten.filter tr, ps.length + 1)) :=
  all_chain_spec fetch tr hc envE fuel hf hd hfuel

/-- Witness for C1 on the spec's example: pages `[A,B]` (cursor `c1`), `[C]`
(cursor absent), then `[]`; `all()` returns `[A,B,C]` after exactly 3 calls. -/
theorem c1_witness :
    Chain specFetchC1 0 none [["A", "B"], ["C"]] none ∧
    specFetchC1 2 none = .ok ⟨some [], none⟩ ∧
    all specFetchC1 (fun s => s != "") 5 = some (.ok (["A", "B", "C"], 3)) := by
  have hc : Chain specFetchC1 0 none [["A", "B"], ["C"]] none := by
    refine Chain.cons 0 none ⟨some ["A", "B"], some "c1"⟩ ["A", "B"] _ none rfl rfl
      (by decide) ?_
    refine Chain.cons 1 (some "c1") ⟨some ["C"], none⟩ ["C"] [] none rfl rfl
      (by decide) ?_
    exact Chain.nil 2 none
  refine ⟨hc, rfl, ?_⟩
  exact c1_all_materializes specFetchC1 (fun s => s != "") [["A", "B"], ["C"]] none
    ⟨some [], none⟩ 5 hc rfl rfl (by decide)

/-- Claim C2: the step reports `done` iff the extracted data array is empty;
the stored next cursor is the envelope's next field whether or not it is
present, and a non-empty page with a missing cursor keeps iterating: the
search loop proceeds to one more fetch (at the next call index) with the
absent cursor. -/
theorem c2_done_iff_empty_page {E T : Type} (fetch : Fetcher E T) (i : Nat)
    (cur : Option String) (env : Envelope T) (data : List T)
    (hf : fetch i cur = .ok env) (hd : env.dataF = some data) :
    stepNext fetch i cur = .ok (data, data.length == 0, env.nextF) ∧
    ((data.length == 0) = true ↔ data = []) ∧
    (∀ (pred : T → Bool) (fuel : Nat), data ≠ [] → data.find? pred = none →
      findFirstLoop fetch pred (fuel + 1) i cur =
        findFirstLoop fetch pred fuel (i + 1) env.nextF) := by
  refine ⟨by simp [stepNext, hf, hd], by cases data <;> simp, ?_⟩
  intro pred fuel hne hfind
  simp [findFirstLoop, stepNext, hf, hd, length_beq_zero_false hne, hfind]

/-- Witness for C2: an envelope with a non-empty page `[5]` and no cursor
field is not `done`, and the search loop issues one more fetch. -/
theorem c2_witness :
    w2fetch 0 none = .ok ⟨some [5], none⟩ ∧
    stepNext w2fetch 0 none = .ok ([5], false, none) ∧
    findFirstLoop w2fetch (fun x => x == 7) 2 0 none =
      findFirstLoop w2fetch (fun x => x == 7) 1 1 none := by
  have h := c2_done_iff_empty_page w2fetch 0 none ⟨some [5], none⟩ [5] rfl rfl
  exact ⟨rfl, h.1, h.2.2 (fun x => x == 7) 1 (by decide) (by decide)⟩

/-- Claim C9: per element, `flatMapNotNull` keeps a mapped result exactly when
it is truthy (an absent mapped value is falsy), as `keptList` records; and
`all()`, mapping each element to itself, therefore returns only the truthy
elements of the fetched pages. -/
theorem c9_truthy_kept {T R : Type} :
    (∀ (m : T → Option R) (tr : R → Bool) (acc : List R) (p : List T),
        processPage m tr none acc p = (acc ++ keptList m tr p, false))
    ∧ (∀ (E : Type) (fetch : Fetcher E T) (tr : T → Bool) (ps : List (List T))
        (curE : Option String) (envE : Envelope T) (fuel : Nat),
        Chain fetch 0 none ps curE →
        fetch ps.length curE = .ok envE → envE.dataF = some [] →
        ps.length + 1 ≤ fuel →
        all fetch tr fuel = some (.ok (ps.flatten.filter tr, ps.length + 1))) := by
  constructor
  · intro m tr acc p
    exact processPage_noLimit m tr p acc
  · intro E fetch tr ps curE envE fuel hc hf hd hfuel
    exact all_chain_spec fetch tr hc envE fuel hf hd hfuel

/-- Witness for C9: mapping identity over the page `[0,1,2]` keeps exactly the
truthy numbers `[1,2]`, both per page and through `all()`. -/
theorem c9_witness :
    processPage some (fun x : Nat => x != 0) none [] [0, 1, 2] = (([1, 2] : List Nat), false) ∧
    all w9fetch (fun x => x != 0) 5 = some (.ok ([1, 2], 2)) := by
  have hc : Chain w9fetch 0 none [[0, 1, 2]] (some "x") := by
    refine Chain.cons 0 none ⟨some [0, 1, 2], some "x"⟩ [0, 1, 2] [] (some "x") rfl rfl
      (by decide) ?_
    exact Chain.nil 1 (some "x")
  constructor
  · exact c9_truthy_kept.1 some (fun x : Nat => x != 0) [] [0, 1, 2]
  · exact (c9_truthy_kept (T := Nat) (R := Nat)).2 Unit w9fetch (fun x => x != 0) [[0, 1, 2]] (some "x")
      ⟨some [], none⟩ 5 hc rfl rfl (by decide)

/-- Claim C10: a supplied limit of `0` is falsy, so the limit check is skipped
and `flatMapNotNull` behaves exactly as with no limit at all. -/
theorem c10_limit_zero_is_no_limit {E T R : Type} (fetch : Fetcher E T)
    (m : T → Option R) (tr : R → Bool) (fuel : Nat) :
    flatMapNotNull fetch m tr (some 0) fuel = flatMapNotNull fetch m tr none fuel := by
  simp only [flatMapNotNull]
  exact flatMapLoop_limit_zero fetch m tr fuel 0 none []

/-- Claim C3: with a positive limit, once the accumulator reaches the limit
inside a page, `flatMapNotNull` returns it at once — the rest of the page and
all later pages are skipped (only `ps.length + 1` fetches happen, whatever the
fetcher would do afterwards) — and the returned accumulator has exactly
`limit` elements, in encounter order. -/
theorem c3_limit_short_circuits {E T R : Type} (fetch : Fetcher E T)
    (m : T → Option R) (tr : R → Bool) (n : Nat) (ps : List (List T))
    (curE : Option String) (env : Envelope T) (p : List T)
    (accF acc2 : List R) (fuel : Nat)
    (hn : 0 < n)
    (hc : Chain fetch 0 none ps curE)
    (hpp : processPages m tr (some n) [] ps = (accF, false))
    (hf : fetch ps.length curE = .ok env)
    (hd : env.dataF = some p) (hp : p ≠ [])
    (hpage : processPage m tr (some n) accF p = (acc2, true))
    (hfuel : ps.length + 1 ≤ fuel) :
    flatMapNotNull fetch m tr (some n) fuel = some (.ok (acc2, ps.length + 1)) ∧
    acc2.length = n := by
  constructor
  · have := flatMapLoop_chain_early m tr (some n) hc [] accF acc2 env p fuel hpp
      (by simpa using hf) hd hp hpage hfuel
    simpa [flatMapNotNull] using this
  · have hlt : accF.length < n :=
      processPages_noEarly_len m tr hn ps [] accF (by simpa using hn) hpp
    exact processPage_early_len m tr hn p accF acc2 hlt hpage

/-- Witness for C3, the spec's example: limit 2 over the page `[a,b,c]` stops
at `[a,b]` after one single fetch — the second fetch, which would fail, is
never issued. -/
theorem c3_witness :
    processPage some (fun _ : String => true) (some 2) [] ["a", "b", "c"] =
      ((["a", "b"] : List String), true) ∧
    w3fetch 1 (some "c1") = .error () ∧
    flatMapNotNull w3fetch some (fun _ => true) (some 2) 5 =
      some (.ok (["a", "b"], 1)) ∧
    (["a", "b"] : List String).length = 2 := by
  have h := c3_limit_short_circuits w3fetch some (fun _ => true) 2 [] none
    ⟨some ["a", "b", "c"], some "c1"⟩ ["a", "b", "c"] [] ["a", "b"] 5
    (by decide) (Chain.nil 0 none) rfl rfl rfl (by decide) rfl (by decide)
  exact ⟨rfl, rfl, h.1, h.2⟩

/-- Claim C4: `findFirst` is `findFirstAsync` with the predicate lifted; both
scan pages in fetch order and elements in array order, return the first match
right after the page containing it with no later fetch issued, and return the
absent value when the chain ends in an empty page with no match. -/
theorem c4_findFirst_scan {E T : Type} :
    (∀ (fetch : Fetcher E T) (pred : T → Bool) (fuel : Nat),
        findFirst fetch pred fuel = findFirstAsync fetch pred fuel)
    ∧ (∀ (fetch : Fetcher E T) (pred : T → Bool) (ps : List (List T))
        (curE : Option String) (env : Envelope T) (p : List T) (x : T) (fuel : Nat),
        Chain fetch 0 none ps curE →
        (∀ y ∈ ps.flatten, pred y = false) →
        fetch ps.length curE = .ok env → env.dataF = some p →
        p.find? pred = some x →
        ps.length + 1 ≤ fuel →
        findFirst fetch pred fuel = some (.ok (some x, ps.length + 1)))
    ∧ (∀ (fetch : Fetcher E T) (pred : T → Bool) (ps : List (List T))
        (curE : Option String) (env : Envelope T) (fuel : Nat),
        Chain fetch 0 none ps curE →
        (∀ y ∈ ps.flatten, pred y = false) →
        fetch ps.length curE = .ok env → env.dataF = some [] →
        ps.length + 1 ≤ fuel →
        findFirst fetch pred fuel = some (.ok (none, ps.length + 1))) := by
  refine ⟨fun _ _ _ => rfl, ?_, ?_⟩
  · intro fetch pred ps curE env p x fuel hc hnm hf hd hfind hfuel
    have hq : ∀ q ∈ ps, q.find? pred = none := by
      intro q hq
      exact List.find?_eq_none.mpr fun y hy => by
        simp [hnm y (List.mem_flatten.mpr ⟨q, hq, hy⟩)]
    have := findFirstLoop_chain_found pred hc env p x fuel hq (by simpa using hf)
      hd hfind hfuel
    simpa [findFirst, findFirstAsync] using this
  · intro fetch pred ps curE env fuel hc hnm hf hd hfuel
    have hq : ∀ q ∈ ps, q.find? pred = none := by
      intro q hq
      exact List.find?_eq_none.mpr fun y hy => by
        simp [hnm y (List.mem_flatten.mpr ⟨q, hq, hy⟩)]
    have := findFirstLoop_chain_none pred hc env fuel hq (by simpa using hf)
      hd hfuel
    simpa [findFirst, findFirstAsync] using this

/-- Witness for C4, the spec's example: pages `[1,2]` then `[3,4]` with the
predicate `x == 3` return `3` after exactly 2 fetch calls even though a third
call would fail; and an immediately-empty collection returns the absent
value after a single call. -/
theorem c4_witness :
    w4fetch 2 (some "c2") = .error () ∧
    findFirst w4fetch (fun x => x == 3) 5 = some (.ok (some 3, 2)) ∧
    findFirst w4bfetch (fun x => x == 3) 5 = some (.ok (none, 1)) := by
  have hc : Chain w4fetch 0 none [[1, 2]] (some "c1") := by
    refine Chain.cons 0 none ⟨some [1, 2], some "c1"⟩ [1, 2] [] (some "c1") rfl rfl
      (by decide) ?_
    exact Chain.nil 1 (some "c1")
  refine ⟨rfl, ?_, ?_⟩
  · exact (c4_findFirst_scan (E := Unit) (T := Nat)).2.1 w4fetch (fun x => x == 3)
      [[1, 2]] (some "c1") ⟨some [3, 4], some "c2"⟩ [3, 4] 3 5 hc (by decide) rfl rfl
      (by decide) (by decide)
  · exact (c4_findFirst_scan (E := Unit) (T := Nat)).2.2 w4bfetch (fun x => x == 3)
      [] none ⟨some [], none⟩ 5 (Chain.nil 0 none) (by decide) rfl rfl (by decide)

/-- Claim C6: when the fetcher rejects on a call an aggregate operation
actually reaches (all earlier pages non-empty, no early limit stop and no
earlier match), `flatMapNotNull`, `all`, `findFirst` and `findFirstAsync` all
reject with exactly that error — unwrapped — and any accumulation from the
pages fetched before the failure is discarded. -/
theorem c6_error_propagation {E T R : Type} :
    (∀ (fetch : Fetcher E T) (m : T → Option R) (tr : R → Bool)
        (limit : Option Nat) (ps : List (List T)) (curE : Option String)
        (accF : List R) (e : E) (fuel : Nat),
        Chain fetch 0 none ps curE →
        processPages m tr limit [] ps = (accF, false) →
        fetch ps.length curE = .error e →
        ps.length + 1 ≤ fuel →
        flatMapNotNull fetch m tr limit fuel = some (.error (.fetchError e)))
    ∧ (∀ (fetch : Fetcher E T) (tr : T → Bool) (ps : List (List T))
        (curE : Option String) (e : E) (fuel : Nat),
        Chain fetch 0 none ps curE →
        fetch ps.length curE = .error e →
        ps.length + 1 ≤ fuel →
        all fetch tr fuel = some (.error (.fetchError e)))
    ∧ (∀ (fetch : Fetcher E T) (pred : T → Bool) (ps : List (List T))
        (curE : Option String) (e : E) (fuel : Nat),
        Chain fetch 0 none ps curE →
        (∀ y ∈ ps.flatten, pred y = false) →
        fetch ps.length curE = .error e →
        ps.length + 1 ≤ fuel →
        findFirst fetch pred fuel = some (.error (.fetchError e)) ∧
          findFirstAsync fetch pred fuel = some (.error (.fetchError e))) := by
  refine ⟨?_, ?_, ?_⟩
  · intro fetch m tr limit ps curE accF e fuel hc hpp hf hfuel
    have := flatMapLoop_chain_err m tr limit hc [] accF e fuel hpp
      (by simpa using hf) hfuel
    simpa [flatMapNotNull] using this
  · intro fetch tr ps curE e fuel hc hf hfuel
    have hpp := processPages_noLimit some tr ps []
    have := flatMapLoop_chain_err some tr none hc []
      ((ps.map (keptList some tr)).flatten) e fuel (by simpa using hpp)
      (by simpa using hf) hfuel
    simpa [all, flatMapNotNull] using this
  · intro fetch pred ps curE e fuel hc hnm hf hfuel
    have hq : ∀ q ∈ ps, q.find? pred = none := by
      intro q hq
      exact List.find?_eq_none.mpr fun y hy => by
        simp [hnm y (List.mem_flatten.mpr ⟨q, hq, hy⟩)]
    have := findFirstLoop_chain_err pred hc e fuel hq (by simpa using hf) hfuel
    constructor <;> simpa [findFirst, findFirstAsync] using this

/-- Witness for C6: a fetcher failing with `"boom"` on its second call makes
`all()` (and a matchless `findFirst`) reject with exactly `"boom"`, the
first page's accumulation `[7]` being discarded. -/
theorem c6_witness :
    w6fetch 1 (some "c1") = .error "boom" ∧
    all w6fetch (fun x => x != 0) 5 = some (.error (.fetchError "boom")) ∧
    findFirst w6fetch (fun x => x == 3) 5 = some (.error (.fetchError "boom")) := by
  have hc : Chain w6fetch 0 none [[7]] (some "c1") := by
    refine Chain.cons 0 none ⟨some [7], some "c1"⟩ [7] [] (some "c1") rfl rfl
      (by decide) ?_
    exact Chain.nil 1 (some "c1")
  refine ⟨rfl, ?_, ?_⟩
  · exact (c6_error_propagation (E := String) (T := Nat) (R := Nat)).2.1 w6fetch
      (fun x => x != 0) [[7]] (some "c1") "boom" 5 hc rfl (by decide)
  · exact ((c6_error_propagation (E := String) (T := Nat) (R := Nat)).2.2 w6fetch
      (fun x => x == 3) [[7]] (some "c1") "boom" 5 hc (by decide) rfl (by decide)).1

/-- Claim C5 as stated is false for an empty-string cursor: the envelope at
the base path carries next-cursor `""`, the iterator stores it, but `if
(next)` is falsy on `""`, so the following fetch requests the bare base path
instead of `api/items?next=` — the two requests observably differ. -/
theorem c5_counterexample :
    stepNext (fun _ cur => fromUsingFetch cexHttpC5 "api/items" "next" cur) 0 none =
      .ok (["p1"], false, some "") ∧
    fromUsingFetch cexHttpC5 "api/items" "next" (some "") = .ok ⟨some ["p1"], some ""⟩ ∧
    cexHttpC5 "api/items?next=" = .ok ⟨some ["api/items?next="], none⟩ ∧
    fromUsingFetch cexHttpC5 "api/items" "next" (some "") ≠ cexHttpC5 "api/items?next=" := by
  exact ⟨rfl, rfl, rfl, by decide⟩

/-- Claim C5 (amended): every non-empty cursor value returned in an
envelope's next field becomes the new cursor of the step, and the immediately
following fetch requests exactly `basePath` + (`&` if `basePath` contains `?`
else `?`) + percent-encoded parameter name + `=` + the percent-encoded cursor
value; an empty-string cursor is falsy and is treated as absent. -/
theorem c5_cursor_roundtrip {E T : Type} (http : String → Except E (Envelope T))
    (basePath qp : String) (i : Nat) (cur : Option String) (env : Envelope T)
    (s : String) (data : List T)
    (hf : fromUsingFetch http basePath qp cur = .ok env)
    (hd : env.dataF = some data) (hs : env.nextF = some s) (hne : s ≠ "") :
    stepNext (fun _ c => fromUsingFetch http basePath qp c) i cur =
      .ok (data, data.length == 0, some s) ∧
    fromUsingFetch http basePath qp (some s) =
      http (basePath ++ (if basePath.toList.contains '?' then "&" else "?") ++
        encodeURIComponent qp ++ "=" ++ encodeURIComponent s) := by
  constructor
  · simp [stepNext, hf, hd, hs]
  · simp only [fromUsingFetch, buildPath]
    rw [if_pos (by simpa using hne)]

/-- Witness for C5: the cursor `"a b"` stored from the first envelope is sent
on the next fetch as `?next=a%20b` appended to the query-less base path. -/
theorem c5_witness :
    fromUsingFetch w5http "api/items" "next" none = .ok ⟨some ["api/items"], some "a b"⟩ ∧
    ("a b" : String) ≠ "" ∧
    stepNext (fun _ c => fromUsingFetch w5http "api/items" "next" c) 0 none =
      .ok (["api/items"], false, some "a b") ∧
    fromUsingFetch w5http "api/items" "next" (some "a b") = w5http "api/items?next=a%20b" := by
  have h := c5_cursor_roundtrip w5http "api/items" "next" 0 none
    ⟨some ["api/items"], some "a b"⟩ "a b" ["api/items"] rfl rfl rfl (by decide)
  refine ⟨rfl, by decide, h.1, ?_⟩
  rw [h.2]
  exact congrArg w5http (by decide)

/-- Claim C7 as stated is false: over a fetcher whose envelope lacks the data
field, `all()` does not return the empty list after one call — the step
throws reading `length` of `undefined`, so the run rejects. -/
theorem c7_counterexample :
    all cexFetchC7 (fun _ => true) 3 = some (.error .undefinedLength) ∧
    all cexFetchC7 (fun _ => true) 3 ≠ some (.ok ([], 1)) := by
  exact ⟨rfl, by decide⟩

/-- Claim C7 (amended): an envelope with an absent data field does not yield
an empty page — the step fails with the `length`-of-`undefined` TypeError,
and `all()` over a chain ending in such an envelope rejects with that error
instead of returning a list. -/
theorem c7_absent_data_throws {E T : Type} :
    (∀ (fetch : Fetcher E T) (i : Nat) (cur : Option String) (env : Envelope T),
        fetch i cur = .ok env → env.dataF = none →
        stepNext fetch i cur = .error .undefinedLength)
    ∧ (∀ (fetch : Fetcher E T) (tr : T → Bool) (ps : List (List T))
        (curE : Option String) (envE : Envelope T) (fuel : Nat),
        Chain fetch 0 none ps curE →
        fetch ps.length curE = .ok envE → envE.dataF = none →
        ps.length + 1 ≤ fuel →
        all fetch tr fuel = some (.error .undefinedLength)) := by
  constructor
  · intro fetch i cur env hf hd
    simp [stepNext, hf, hd]
  · intro fetch tr ps curE envE fuel hc hf hd hfuel
    have hpp := processPages_noLimit some tr ps []
    have := flatMapLoop_chain_undef some tr none hc []
      ((ps.map (keptList some tr)).flatten) envE fuel (by simpa using hpp)
      (by simpa using hf) hd hfuel
    simpa [all, flatMapNotNull] using this

/-- Witness for C7 (amended): the data-less envelope makes the step and the
whole `all()` run fail with the TypeError model. -/
theorem c7_witness :
    cexFetchC7 0 none = .ok ⟨none, some "x"⟩ ∧
    stepNext cexFetchC7 0 none = .error .undefinedLength ∧
    all cexFetchC7 (fun _ => true) 4 = some (.error .undefinedLength) := by
  refine ⟨rfl, ?_, ?_⟩
  · exact (c7_absent_data_throws (E := Unit) (T := Nat)).1 cexFetchC7 0 none
      ⟨none, some "x"⟩ rfl rfl
  · exact (c7_absent_data_throws (E := Unit) (T := Nat)).2 cexFetchC7 (fun _ => true)
      [] none ⟨none, some "x"⟩ 4 (Chain.nil 0 none) rfl rfl (by decide)

/-- Claim C8: iterators allocated from the same iterable are independent: a
fresh iterator's cursor slot starts absent, advancing iterator `i` leaves
every other slot untouched, and both the page observed by a step of `i` and
`i`'s resulting cursor depend only on `i`'s own slot. -/
theorem c8_iterator_independence {E T : Type} :
    (∀ (sto : List (Option String)), ((iterate sto).1)[(iterate sto).2]? = some none)
    ∧ (∀ (fetch : Option String → Except E (Envelope T)) (i j : Nat)
        (sto : List (Option String)), j ≠ i →
        ((storeStep fetch i sto).2)[j]? = sto[j]?)
    ∧ (∀ (fetch : Option String → Except E (Envelope T)) (i : Nat)
        (sto sto2 : List (Option String)), sto[i]? = sto2[i]? →
        (storeStep fetch i sto).1 = (storeStep fetch i sto2).1 ∧
        ((storeStep fetch i sto).2)[i]? = ((storeStep fetch i sto2).2)[i]?) := by
  refine ⟨?_, ?_, ?_⟩
  · intro sto
    exact List.getElem?_concat_length sto none
  · intro fetch i j sto hj
    rcases hsto : sto[i]? with _ | cur
    · simp [storeStep, hsto]
    · rcases hfe : fetch cur with e | env
      · simp [storeStep, hsto, hfe]
      · rcases hde : env.dataF with _ | data <;>
          simp [storeStep, hsto, hfe, hde, List.getElem?_set_ne (Ne.symm hj)]
  · intro fetch i sto sto2 hsame
    rcases hsto : sto[i]? with _ | cur
    · have hsto2 : sto2[i]? = none := by rw [← hsame]; exact hsto
      simp [storeStep, hsto, hsto2]
    · have hsto2 : sto2[i]? = some cur := by rw [← hsame]; exact hsto
      have hlt : i < sto.length := by
        by_contra hge
        rw [List.getElem?_eq_none (by omega)] at hsto
        exact Option.noConfusion hsto
      have hlt2 : i < sto2.length := by
        by_contra hge
        rw [List.getElem?_eq_none (by omega)] at hsto2
        exact Option.noConfusion hsto2
      rcases hfe : fetch cur with e | env
      · simp [storeStep, hsto, hsto2, hfe, hsame]
      · rcases hde : env.dataF with _ | data <;>
          simp [storeStep, hsto, hsto2, hfe, hde,
            List.getElem?_set_eq_of_lt env.nextF hlt,
            List.getElem?_set_eq_of_lt env.nextF hlt2]

/-- Witness for C8: a freshly allocated iterator starts with an absent
cursor, stepping iterator 0 leaves iterator 1's slot unchanged, and iterator
0 behaves identically whether or not iterator 1 exists in the store. -/
theorem c8_witness :
    ((iterate ([some "x"] : List (Option String))).1)[(iterate ([some "x"] : List (Option String))).2]? = some none ∧
    ((storeStep w8fetch 0 [some "x", none]).2)[1]? = ([some "x", none] : List (Option String))[1]? ∧
    ((storeStep w8fetch 0 [some "x"]).1 = (storeStep w8fetch 0 [some "x", some "z"]).1 ∧
      ((storeStep w8fetch 0 [some "x"]).2)[0]? = ((storeStep w8fetch 0 [some "x", some "z"]).2)[0]?) :=
  ⟨(c8_iterator_independence (E := Unit) (T := Nat)).1 [some "x"],
    (c8_iterator_independence (E := Unit) (T := Nat)).2.1 w8fetch 0 1 [some "x", none] (by decide),
    (c8_iterator_independence (E := Unit) (T := Nat)).2.2 w8fetch 0 [some "x"] [some "x", some "z"] rfl⟩

end SpacePagination
